import Mathlib

/-!
Verification of the snapshot-diff classifier in
`generate_user_report.py` (OSGConnect/user-account-tracking).

Embedding choices:
* Parsed datetimes (`datetime.strptime(_, DATE_FMT)`) form a total order;
  we embed them as `Nat`, with `datetime.min` (the least representable
  datetime, used as a sentinel in `get_latest_snapshot_on_disk`) mapped
  to `0`.
* A Python `dict` is an insertion-ordered association list with unique
  keys; iteration follows list order and lookup (`d[k]`) returns the
  value of the unique matching key, raising `KeyError` when absent.
  We model lookup as `alookup`, returning `Option`.
* Python `set`s are modelled as lists considered up to membership.
* Functions that can raise (`KeyError` on a missing user) return
  `Except String _`, carrying the offending key.
* Membership states are the raw strings the code compares against
  (`GroupMemberState.ACTIVE.value = "active"`, `PENDING.value =
  "pending"`).
-/

set_option autoImplicit false

namespace UserReport

/-- A parsed datetime (total order embedded into `Nat`; `datetime.min` is `0`). -/
abbrev Date := Nat

/-- One value of the per-user record inside a snapshot's `users` mapping:
`osg_state` (unused by the classifier), an optional `join_date`, and the
`groups` mapping `group_name → state`. -/
structure UserRecord where
  osg_state : Option String
  join_date : Option Date
  groups : List (String × String)
deriving Repr, DecidableEq

/-- A snapshot document: `{"date": ..., "users": {...}}`. -/
structure Snapshot where
  date : Date
  users : List (String × UserRecord)
deriving Repr, DecidableEq

/-- Dictionary lookup `d[k]` as an `Option`: value at the first matching key. -/
def alookup {α : Type} (k : String) : List (String × α) → Option α
  | [] => none
  | (k', v) :: rest => if k = k' then some v else alookup k rest

/-- `GroupMemberState.ACTIVE.value`. -/
def ACTIVE : String := "active"

/-- `GroupMemberState.PENDING.value`. -/
def PENDING : String := "pending"

/-- `state in {GroupMemberState.ACTIVE.value, GroupMemberState.PENDING.value}`. -/
def stateCounts (state : String) : Prop := state = ACTIVE ∨ state = PENDING

instance (state : String) : Decidable (stateCounts state) := by
  unfold stateCounts; infer_instance

/-- `get_new_account_requests(prev_snapshot, curr_snapshot)`: iterate
`curr_snapshot["users"].items()`; for records carrying a `join_date`,
append the user name when
`start_date < join_date and join_date <= end_date`, where `start_date`
is `prev_snapshot["date"]` and `end_date` is `curr_snapshot["date"]`. -/
def get_new_account_requests (prev_snapshot curr_snapshot : Snapshot) : List String :=
  curr_snapshot.users.filterMap fun p =>
    match p.2.join_date with
    | none => none
    | some join_date =>
        if prev_snapshot.date < join_date ∧ join_date ≤ curr_snapshot.date then
          some p.1
        else
          none

/-- The loop of `get_new_accounts_accepted` over
`prev_snapshot["users"].items()`.  For each user: if `"root.osg"` is
missing from the record's `groups` the user is skipped (a warning is
logged); otherwise, when the previous state equals `PENDING`, Python's
short-circuiting `and` evaluates
`curr_snapshot["users"][u_name]["groups"]["root.osg"]`, whose `KeyError`
(user absent from `curr`, or `"root.osg"` absent from their groups)
aborts the whole computation; when both states match
(`pending` then `active`) the user is appended. -/
def acceptedScan (curr_snapshot : Snapshot) : List (String × UserRecord) → Except String (List String)
  | [] => .ok []
  | (u_name, u_info) :: rest =>
    match alookup "root.osg" u_info.groups with
    | none => acceptedScan curr_snapshot rest
    | some st =>
      if st = PENDING then
        match alookup u_name curr_snapshot.users with
        | none => .error u_name
        | some curr_info =>
          match alookup "root.osg" curr_info.groups with
          | none => .error u_name
          | some curr_st =>
            match acceptedScan curr_snapshot rest with
            | .error e => .error e
            | .ok accounts => .ok (if curr_st = ACTIVE then u_name :: accounts else accounts)
      else acceptedScan curr_snapshot rest

/-- `get_new_accounts_accepted(prev_snapshot, curr_snapshot)`: scan
`prev_snapshot["users"]` appending users whose `root.osg` state moves
from `pending` to `active`; an unguarded lookup into `curr_snapshot`
raises (`Except.error`) with no partial result. -/
def get_new_accounts_accepted (prev_snapshot curr_snapshot : Snapshot) : Except String (List String) :=
  acceptedScan curr_snapshot prev_snapshot.users

/-- Python `set.update`: the members of `b` are added to `a` (modelled
up to membership). -/
def setUnion (a b : List String) : List String :=
  a ++ b.filter fun x => decide (x ∉ a)

/-- The shared loop shape of the four partition functions: for each user
of the input list, look up `curr_snapshot["users"][user]["groups"]`
(`KeyError` aborts the run) and append the user on the first
`(group_name, state)` pair satisfying `q` (the `break` makes at most one
append per list element). -/
def partitionScan (curr_snapshot : Snapshot) (q : String → String → Bool) :
    List String → Except String (List String)
  | [] => .ok []
  | user :: rest =>
    match alookup user curr_snapshot.users with
    | none => .error user
    | some info =>
      match partitionScan curr_snapshot q rest with
      | .error e => .error e
      | .ok accounts =>
        .ok (if info.groups.any (fun gs => q gs.1 gs.2) then user :: accounts else accounts)

/-- `get_new_account_requests_in_training_group(new_act_reqs,
curr_snapshot, training_projects)`: keep the users having some group in
`training_projects` with state `active` or `pending`. -/
def get_new_account_requests_in_training_group (new_act_reqs : List String)
    (curr_snapshot : Snapshot) (training_projects : List String) : Except String (List String) :=
  partitionScan curr_snapshot
    (fun group_name state => decide (group_name ∈ training_projects ∧ stateCounts state))
    new_act_reqs

/-- `get_new_account_requests_in_non_training_group(new_act_reqs,
curr_snapshot, training_projects, exclude={"root", "root.osg"})`: first
`exclude.update(training_projects)` mutates the caller's set in place
(modelled by returning the updated set as the second component), then
keep the users having some group outside the updated `exclude` with
state `active` or `pending`. -/
def get_new_account_requests_in_non_training_group (new_act_reqs : List String)
    (curr_snapshot : Snapshot) (training_projects : List String)
    (exclude : List String) : Except String (List String) × List String :=
  let exclude := setUnion exclude training_projects
  (partitionScan curr_snapshot
      (fun group_name state => decide (group_name ∉ exclude ∧ stateCounts state))
      new_act_reqs,
    exclude)

/-- `get_new_accounts_accepted_in_training_group(new_acts_accepted,
curr_snapshot, training_projects)`: identical body to the requests
variant in the source. -/
def get_new_accounts_accepted_in_training_group (new_acts_accepted : List String)
    (curr_snapshot : Snapshot) (training_projects : List String) : Except String (List String) :=
  partitionScan curr_snapshot
    (fun group_name state => decide (group_name ∈ training_projects ∧ stateCounts state))
    new_acts_accepted

/-- `get_new_accounts_accepted_in_non_training_group(new_acts_accepted,
curr_snapshot, training_projects, exclude={"root", "root.osg"})`:
identical body to the requests variant in the source, including the
in-place `exclude.update(training_projects)`. -/
def get_new_accounts_accepted_in_non_training_group (new_acts_accepted : List String)
    (curr_snapshot : Snapshot) (training_projects : List String)
    (exclude : List String) : Except String (List String) × List String :=
  let exclude := setUnion exclude training_projects
  (partitionScan curr_snapshot
      (fun group_name state => decide (group_name ∉ exclude ∧ stateCounts state))
      new_acts_accepted,
    exclude)

/-- `curr_snapshot["users"][u]["groups"]["root.osg"]` raises: the user is
absent from `curr`, or present without the `"root.osg"` group key. -/
def missing_in_curr (curr_snapshot : Snapshot) (u : String) : Bool :=
  match alookup u curr_snapshot.users with
  | none => true
  | some curr_info => alookup "root.osg" curr_info.groups = none

/-- One file of the `snapshots/` directory: its name, and the result of
`json.load` + `["date"]` + `datetime.strptime(_, DATE_FMT)` on its
contents (`none` when any of the three steps raises). -/
structure SnapshotFile where
  name : String
  parsed_date : Option Date
deriving Repr, DecidableEq

/-- `f.name.endswith("_snapshot.json")`: the file name's character
sequence ends with the pattern's. -/
def is_snapshot_file (f : SnapshotFile) : Bool :=
  List.isSuffixOf "_snapshot.json".data f.name.data

/-- The loop of `get_latest_snapshot_on_disk` over the directory entries:
non-matching names are skipped; a matching file whose contents fail to
parse raises (`Except.error`); otherwise the accumulator is replaced
exactly when the parsed date strictly exceeds the best so far (which
starts at `datetime.min`, embedded as `0`). -/
def scan_snapshot_dir : List SnapshotFile → Option String → Date → Except Unit (Option String)
  | [], latest_file, _ => .ok latest_file
  | f :: rest, latest_file, latest_date =>
    if is_snapshot_file f then
      match f.parsed_date with
      | none => .error ()
      | some d =>
        if latest_date < d then scan_snapshot_dir rest (some f.name) d
        else scan_snapshot_dir rest latest_file latest_date
    else scan_snapshot_dir rest latest_file latest_date

/-- `get_latest_snapshot_on_disk()`: `none` input models a missing
`snapshots/` directory (`SNAPSHOT_DIR.is_dir()` false); otherwise the
directory's entries are scanned starting from
`(latest_snapshot_file, latest_snapshot_date) = (None, datetime.min)`,
and the name of the latest snapshot file (or `None`) is returned. -/
def get_latest_snapshot_on_disk (dir : Option (List SnapshotFile)) : Except Unit (Option String) :=
  match dir with
  | none => .ok none
  | some files => scan_snapshot_dir files none 0

/-- The `prev_snapshot` pytest fixture of
`test/test_generate_user_report.py`, with its datetimes embedded as:
`2021-Jan-01 00:00:00` ↦ `99`, `2021-Jan-01 00:00:01` ↦ `100`,
`2021-Jan-01 04:46:25.868712` ↦ `150`, `2021-Jan-07 00:00:00` ↦ `700`. -/
def prevFixture : Snapshot :=
  ⟨100,
    [("jim_halpert",
        ⟨some PENDING, some 99,
          [("root.osg", PENDING), ("root.osg.training2021", PENDING),
            ("root.osg.non_training", PENDING)]⟩),
      ("pam_beesly",
        ⟨some ACTIVE, some 150,
          [("root.osg", ACTIVE), ("root.osg.non_training", ACTIVE)]⟩)]⟩

/-- The `curr_snapshot` pytest fixture, same date embedding as
`prevFixture`. -/
def currFixture : Snapshot :=
  ⟨700,
    [("jim_halpert",
        ⟨some ACTIVE, some 99,
          [("root.osg", ACTIVE), ("root.osg.training2021", ACTIVE),
            ("root.osg.non_training", ACTIVE)]⟩),
      ("pam_beesly",
        ⟨some ACTIVE, some 150,
          [("root.osg", ACTIVE), ("root.osg.non_training", ACTIVE),
            ("root.osg.training2021", PENDING)]⟩)]⟩

end UserReport

namespace UserReport

/-- C1: `get_new_account_requests` returns exactly the users of
`curr.users` that carry a `join_date` with
`prev.date < join_date ≤ curr.date` (open lower bound, closed upper
bound); a record without `join_date` is skipped without error (the
function is total). -/
theorem c1_new_account_requests_characterization
    (prev curr : Snapshot) (u : String) :
    u ∈ get_new_account_requests prev curr ↔
      ∃ info : UserRecord, (u, info) ∈ curr.users ∧
        ∃ jd : Date, info.join_date = some jd ∧ prev.date < jd ∧ jd ≤ curr.date := by
  unfold get_new_account_requests
  rw [List.mem_filterMap]
  constructor
  · rintro ⟨⟨name, info⟩, hmem, heq⟩
    dsimp at heq
    split at heq
    · exact absurd heq (by simp)
    · rename_i jd hjd
      split at heq
      · rename_i hcond
        obtain rfl : name = u := by injection heq
        exact ⟨info, hmem, jd, hjd, hcond⟩
      · exact absurd heq (by simp)
  · rintro ⟨info, hmem, jd, hjd, hlo, hhi⟩
    refine ⟨(u, info), hmem, ?_⟩
    dsimp
    rw [hjd]
    simp [hlo, hhi]

/-- C9: the output of `get_new_account_requests` depends only on
`prev.date` (and `curr`): the previous snapshot's `users` mapping is
never read, so two previous snapshots with equal `date` fields give
identical results. -/
theorem c9_prev_users_never_read
    (prev prev' curr : Snapshot) (h : prev.date = prev'.date) :
    get_new_account_requests prev curr = get_new_account_requests prev' curr := by
  unfold get_new_account_requests
  rw [h]

/-- Witness for C9 at a concrete input: two previous snapshots with the
same date but different (even empty) users maps give the same result. -/
theorem c9_prev_users_never_read_witness :
    (Snapshot.mk 5 [("bob", ⟨some ACTIVE, some 3, [("root.osg", ACTIVE)]⟩)]).date
      = (Snapshot.mk 5 []).date ∧
    get_new_account_requests
        (Snapshot.mk 5 [("bob", ⟨some ACTIVE, some 3, [("root.osg", ACTIVE)]⟩)])
        (Snapshot.mk 10 [("pam", ⟨some ACTIVE, some 7, [("root.osg", ACTIVE)]⟩)])
      = get_new_account_requests (Snapshot.mk 5 [])
          (Snapshot.mk 10 [("pam", ⟨some ACTIVE, some 7, [("root.osg", ACTIVE)]⟩)]) :=
  ⟨rfl, c9_prev_users_never_read _ _ _ rfl⟩

/-- Sanity check replaying `test_get_new_account_requests`. -/
theorem test_new_account_requests :
    get_new_account_requests prevFixture currFixture = ["pam_beesly"] := by decide

/-- Sanity check replaying `test_get_new_accounts_accepted`. -/
theorem test_new_accounts_accepted :
    get_new_accounts_accepted prevFixture currFixture = .ok ["jim_halpert"] := rfl

theorem missing_in_curr_false {curr : Snapshot} {u : String}
    (h : missing_in_curr curr u = false) :
    ∃ ci, alookup u curr.users = some ci ∧ ∃ s, alookup "root.osg" ci.groups = some s := by
  cases hc : alookup u curr.users with
  | none => simp [missing_in_curr, hc] at h
  | some ci =>
    refine ⟨ci, rfl, ?_⟩
    cases hs : alookup "root.osg" ci.groups with
    | none => simp [missing_in_curr, hc, hs] at h
    | some s => exact ⟨s, rfl⟩

theorem acceptedScan_ok (curr : Snapshot) (l : List (String × UserRecord))
    (H : ∀ p ∈ l, alookup "root.osg" p.2.groups = some PENDING →
      missing_in_curr curr p.1 = false) :
    ∃ r, acceptedScan curr l = .ok r ∧
      ∀ u, u ∈ r ↔ ∃ p ∈ l, p.1 = u ∧
        alookup "root.osg" p.2.groups = some PENDING ∧
        (alookup p.1 curr.users).bind (fun ci => alookup "root.osg" ci.groups)
          = some ACTIVE := by
  induction l with
  | nil => exact ⟨[], rfl, by simp⟩
  | cons hd rest ih =>
    obtain ⟨u0, info⟩ := hd
    obtain ⟨r, hr, hiff⟩ := ih fun p hp hpend => H p (List.mem_cons_of_mem _ hp) hpend
    cases h1 : alookup "root.osg" info.groups with
    | none =>
      refine ⟨r, by simp [acceptedScan, h1, hr], fun u => ?_⟩
      rw [List.exists_mem_cons_iff, hiff u]
      have hnot : ¬ ((u0, info).1 = u ∧
          alookup "root.osg" (u0, info).2.groups = some PENDING ∧
          (alookup (u0, info).1 curr.users).bind (fun ci => alookup "root.osg" ci.groups)
            = some ACTIVE) := by
        rintro ⟨-, hp, -⟩
        rw [h1] at hp
        cases hp
      exact ⟨Or.inr, fun h => h.resolve_left hnot⟩
    | some st =>
      by_cases hst : st = PENDING
      · subst hst
        obtain ⟨ci, hci, s, hs⟩ :=
          missing_in_curr_false (H (u0, info) (List.mem_cons_self _ _) h1)
        have hbind : (alookup u0 curr.users).bind (fun ci => alookup "root.osg" ci.groups)
            = some s := by rw [hci]; simpa using hs
        refine ⟨if s = ACTIVE then u0 :: r else r, ?_, fun u => ?_⟩
        · simp [acceptedScan, h1, hci, hs, hr]
        · rw [List.exists_mem_cons_iff]
          by_cases hsa : s = ACTIVE
          · subst hsa
            rw [if_pos rfl]
            simp only [List.mem_cons, hiff u]
            constructor
            · rintro (rfl | hu)
              · exact Or.inl ⟨rfl, h1, hbind⟩
              · exact Or.inr hu
            · rintro (⟨rfl, -, -⟩ | hu)
              · exact Or.inl rfl
              · exact Or.inr hu
          · rw [if_neg hsa, hiff u]
            have hnot : ¬ ((u0, info).1 = u ∧
                alookup "root.osg" (u0, info).2.groups = some PENDING ∧
                (alookup (u0, info).1 curr.users).bind (fun ci => alookup "root.osg" ci.groups)
                  = some ACTIVE) := by
              rintro ⟨-, -, hc⟩
              rw [hbind] at hc
              exact hsa (by injection hc)
            exact ⟨Or.inr, fun h => h.resolve_left hnot⟩
      · refine ⟨r, by simp [acceptedScan, h1, hst, hr], fun u => ?_⟩
        rw [List.exists_mem_cons_iff, hiff u]
        have hnot : ¬ ((u0, info).1 = u ∧
            alookup "root.osg" (u0, info).2.groups = some PENDING ∧
            (alookup (u0, info).1 curr.users).bind (fun ci => alookup "root.osg" ci.groups)
              = some ACTIVE) := by
          rintro ⟨-, hp, -⟩
          rw [h1] at hp
          exact hst (by injection hp)
        exact ⟨Or.inr, fun h => h.resolve_left hnot⟩

/-- C2: when every user of `prev.users` whose `root.osg` state is
`pending` can be looked up in `curr` (present in `curr.users` with a
`root.osg` group key), `get_new_accounts_accepted` succeeds and returns
exactly the users whose `root.osg` state is `pending` in `prev` and
`active` in `curr`; in particular `pending → pending` and
`active → active` users are excluded. -/
theorem c2_accepted_pending_to_active
    (prev curr : Snapshot)
    (H : ∀ p ∈ prev.users, alookup "root.osg" p.2.groups = some PENDING →
      missing_in_curr curr p.1 = false) :
    ∃ r, get_new_accounts_accepted prev curr = .ok r ∧
      ∀ u, u ∈ r ↔ ∃ p ∈ prev.users, p.1 = u ∧
        alookup "root.osg" p.2.groups = some PENDING ∧
        (alookup p.1 curr.users).bind (fun ci => alookup "root.osg" ci.groups)
          = some ACTIVE :=
  acceptedScan_ok curr prev.users H

/-- Witness for C2 on the pytest fixtures: `jim_halpert` moves
`pending → active`, `pam_beesly` stays `active → active`. -/
theorem c2_accepted_pending_to_active_witness :
    (∀ p ∈ prevFixture.users, alookup "root.osg" p.2.groups = some PENDING →
      missing_in_curr currFixture p.1 = false) ∧
    ∃ r, get_new_accounts_accepted prevFixture currFixture = .ok r ∧
      ∀ u, u ∈ r ↔ ∃ p ∈ prevFixture.users, p.1 = u ∧
        alookup "root.osg" p.2.groups = some PENDING ∧
        (alookup p.1 currFixture.users).bind (fun ci => alookup "root.osg" ci.groups)
          = some ACTIVE :=
  ⟨by decide, c2_accepted_pending_to_active prevFixture currFixture (by decide)⟩

theorem acceptedScan_skip (curr : Snapshot) (pre post : List (String × UserRecord))
    (u : String) (info : UserRecord)
    (h : alookup "root.osg" info.groups = none) :
    acceptedScan curr (pre ++ (u, info) :: post) = acceptedScan curr (pre ++ post) := by
  induction pre with
  | nil => simp [acceptedScan, h]
  | cons hd tl ih =>
    obtain ⟨v, vi⟩ := hd
    simp only [List.cons_append, acceptedScan]
    simp only [List.append_eq, ih]

theorem acceptedScan_error (curr : Snapshot) (l : List (String × UserRecord))
    (hbad : ∃ p ∈ l, alookup "root.osg" p.2.groups = some PENDING ∧
      missing_in_curr curr p.1 = true) :
    ∃ e, acceptedScan curr l = .error e := by
  induction l with
  | nil => simp at hbad
  | cons hd rest ih =>
    obtain ⟨u0, info⟩ := hd
    rcases hbad with ⟨p, hp, hpend, hmiss⟩
    rcases List.mem_cons.mp hp with rfl | hmem
    · cases hc : alookup u0 curr.users with
      | none => exact ⟨u0, by simp [acceptedScan, hpend, hc]⟩
      | some ci =>
        have hs : alookup "root.osg" ci.groups = none := by
          simpa [missing_in_curr, hc] using hmiss
        exact ⟨u0, by simp [acceptedScan, hpend, hc, hs]⟩
    · obtain ⟨e, he⟩ := ih ⟨p, hmem, hpend, hmiss⟩
      cases h1 : alookup "root.osg" info.groups with
      | none => exact ⟨e, by simp [acceptedScan, h1, he]⟩
      | some st =>
        by_cases hst : st = PENDING
        · subst hst
          cases hc : alookup u0 curr.users with
          | none => exact ⟨u0, by simp [acceptedScan, h1, hc]⟩
          | some ci =>
            cases hs : alookup "root.osg" ci.groups with
            | none => exact ⟨u0, by simp [acceptedScan, h1, hc, hs]⟩
            | some cst => exact ⟨e, by simp [acceptedScan, h1, hc, hs, he]⟩
        · exact ⟨e, by simp [acceptedScan, h1, hst, he]⟩

/-- C3: in `get_new_accounts_accepted`, a user of `prev.users` whose
`groups` map lacks the `"root.osg"` key is skipped and excluded without
aborting: removing them from `prev` leaves the result unchanged.  But as
soon as some user of `prev` has `root.osg = pending` while the lookup
chain `curr.users[u]["groups"]["root.osg"]` fails, the computation
terminates with an error and no partial result. -/
theorem c3_missing_rootosg_handling
    (curr : Snapshot) (d : Date) (pre post : List (String × UserRecord))
    (u : String) (info : UserRecord)
    (hno : alookup "root.osg" info.groups = none)
    (prev : Snapshot)
    (hbad : ∃ p ∈ prev.users, alookup "root.osg" p.2.groups = some PENDING ∧
      missing_in_curr curr p.1 = true) :
    get_new_accounts_accepted ⟨d, pre ++ (u, info) :: post⟩ curr
        = get_new_accounts_accepted ⟨d, pre ++ post⟩ curr ∧
      ∃ e, get_new_accounts_accepted prev curr = .error e :=
  ⟨acceptedScan_skip curr pre post u info hno, acceptedScan_error curr prev.users hbad⟩

/-- Witness for C3: `grp_only` (no `root.osg` key) is skipped harmlessly,
while `ghost` (`pending` in prev, absent from the empty curr snapshot)
aborts the run. -/
theorem c3_missing_rootosg_handling_witness :
    (alookup "root.osg" ([("root.osg.project", ACTIVE)] : List (String × String)) = none) ∧
    (∃ p ∈ (Snapshot.mk 100
        [("grp_only", ⟨none, none, [("root.osg.project", ACTIVE)]⟩),
          ("ghost", ⟨some PENDING, some 50, [("root.osg", PENDING)]⟩)]).users,
      alookup "root.osg" p.2.groups = some PENDING ∧
        missing_in_curr (Snapshot.mk 700 []) p.1 = true) ∧
    (get_new_accounts_accepted
          ⟨100, [] ++ ("grp_only", ⟨none, none, [("root.osg.project", ACTIVE)]⟩) ::
            [("ghost", ⟨some PENDING, some 50, [("root.osg", PENDING)]⟩)]⟩
          ⟨700, []⟩
        = get_new_accounts_accepted
            ⟨100, [] ++ [("ghost", ⟨some PENDING, some 50, [("root.osg", PENDING)]⟩)]⟩
            ⟨700, []⟩ ∧
      ∃ e, get_new_accounts_accepted
          (Snapshot.mk 100
            [("grp_only", ⟨none, none, [("root.osg.project", ACTIVE)]⟩),
              ("ghost", ⟨some PENDING, some 50, [("root.osg", PENDING)]⟩)])
          (Snapshot.mk 700 []) = .error e) :=
  ⟨by decide, by decide,
    c3_missing_rootosg_handling (Snapshot.mk 700 []) 100 []
      [("ghost", ⟨some PENDING, some 50, [("root.osg", PENDING)]⟩)]
      "grp_only" ⟨none, none, [("root.osg.project", ACTIVE)]⟩ (by decide)
      (Snapshot.mk 100
        [("grp_only", ⟨none, none, [("root.osg.project", ACTIVE)]⟩),
          ("ghost", ⟨some PENDING, some 50, [("root.osg", PENDING)]⟩)])
      (by decide)⟩

theorem mem_setUnion (a b : List String) (x : String) :
    x ∈ setUnion a b ↔ x ∈ a ∨ x ∈ b := by
  by_cases h : x ∈ a <;> simp [setUnion, h]

theorem partitionScan_ok (curr : Snapshot) (q : String → String → Bool) (l : List String)
    (hpres : ∀ u ∈ l, (alookup u curr.users).isSome = true) :
    ∃ r, partitionScan curr q l = .ok r ∧ r.Sublist l ∧
      ∀ u, u ∈ r ↔ u ∈ l ∧ ∃ info, alookup u curr.users = some info ∧
        info.groups.any (fun gs => q gs.1 gs.2) = true := by
  induction l with
  | nil => exact ⟨[], rfl, List.Sublist.refl _, by simp⟩
  | cons user rest ih =>
    obtain ⟨r, hr, hsub, hiff⟩ := ih fun u hu => hpres u (List.mem_cons_of_mem _ hu)
    have h0 := hpres user (List.mem_cons_self _ _)
    cases hc : alookup user curr.users with
    | none => rw [hc] at h0; simp at h0
    | some info =>
      cases hq : info.groups.any (fun gs => q gs.1 gs.2) with
      | true =>
        refine ⟨user :: r, by simp [partitionScan, hc, hr, hq],
          List.Sublist.cons₂ user hsub, fun u => ?_⟩
        simp only [List.mem_cons, hiff u]
        constructor
        · rintro (rfl | ⟨hmem, hrest⟩)
          · exact ⟨Or.inl rfl, info, hc, hq⟩
          · exact ⟨Or.inr hmem, hrest⟩
        · rintro ⟨rfl | hmem, info', hc', hq'⟩
          · exact Or.inl rfl
          · exact Or.inr ⟨hmem, info', hc', hq'⟩
      | false =>
        refine ⟨r, by simp [partitionScan, hc, hr, hq],
          List.Sublist.cons user hsub, fun u => ?_⟩
        rw [hiff u]
        simp only [List.mem_cons]
        constructor
        · rintro ⟨hmem, hrest⟩
          exact ⟨Or.inr hmem, hrest⟩
        · rintro ⟨rfl | hmem, info', hc', hq'⟩
          · rw [hc] at hc'
            injection hc' with e
            subst e
            rw [hq] at hq'
            cases hq'
          · exact ⟨hmem, info', hc', hq'⟩

theorem partitionScan_sublist (curr : Snapshot) (q : String → String → Bool) :
    ∀ (l r : List String), partitionScan curr q l = .ok r → r.Sublist l := by
  intro l
  induction l with
  | nil =>
    intro r hr
    simp only [partitionScan] at hr
    injection hr with e
    subst e
    exact List.Sublist.refl _
  | cons user rest ih =>
    intro r hr
    cases hc : alookup user curr.users with
    | none => simp [partitionScan, hc] at hr
    | some info =>
      cases hrec : partitionScan curr q rest with
      | error e => simp [partitionScan, hc, hrec] at hr
      | ok acc =>
        have hacc := ih acc hrec
        cases hq : info.groups.any (fun gs => q gs.1 gs.2) with
        | true =>
          simp [partitionScan, hc, hrec, hq] at hr
          subst hr
          exact List.Sublist.cons₂ user hacc
        | false =>
          simp [partitionScan, hc, hrec, hq] at hr
          subst hr
          exact List.Sublist.cons user hacc

theorem partitionScan_congr (curr : Snapshot) (q q' : String → String → Bool)
    (h : ∀ g s, q g s = q' g s) (l : List String) :
    partitionScan curr q l = partitionScan curr q' l := by
  induction l with
  | nil => rfl
  | cons user rest ih =>
    simp only [partitionScan, ih]
    rw [show (fun gs : String × String => q gs.1 gs.2) = (fun gs => q' gs.1 gs.2)
      from funext fun gs => h gs.1 gs.2]

theorem any_group_iff (info : UserRecord) (P : String → Prop) [DecidablePred P] :
    info.groups.any (fun gs => decide (P gs.1 ∧ stateCounts gs.2)) = true ↔
      ∃ g st, (g, st) ∈ info.groups ∧ P g ∧ stateCounts st := by
  rw [List.any_eq_true]
  constructor
  · rintro ⟨⟨g, st⟩, hmem, hgs⟩
    have h := of_decide_eq_true hgs
    exact ⟨g, st, hmem, h.1, h.2⟩
  · rintro ⟨g, st, hmem, h1, h2⟩
    exact ⟨(g, st), hmem, decide_eq_true ⟨h1, h2⟩⟩

/-- C4: when every listed user is present in `curr.users`, both
training-partition functions succeed with the same result: exactly the
listed users having at least one `(group_name, state)` pair with
`group_name` in the training set and `state` in `{active, pending}`;
each user is appended at most once per list occurrence (the inner scan
breaks at the first match). -/
theorem c4_training_partition_characterization
    (l : List String) (curr : Snapshot) (T : List String)
    (hpres : ∀ u ∈ l, (alookup u curr.users).isSome = true) :
    ∃ r, get_new_account_requests_in_training_group l curr T = .ok r ∧
      get_new_accounts_accepted_in_training_group l curr T = .ok r ∧
      (∀ u, u ∈ r ↔ u ∈ l ∧ ∃ info, alookup u curr.users = some info ∧
        ∃ g st, (g, st) ∈ info.groups ∧ g ∈ T ∧ stateCounts st) ∧
      (∀ u, r.count u ≤ l.count u) := by
  obtain ⟨r, hr, hsub, hiff⟩ := partitionScan_ok curr
    (fun group_name state => decide (group_name ∈ T ∧ stateCounts state)) l hpres
  refine ⟨r, hr, hr, fun u => ?_, fun u => hsub.count_le u⟩
  rw [hiff u]
  constructor
  · rintro ⟨hl, info, hc, hq⟩
    exact ⟨hl, info, hc, (any_group_iff info (· ∈ T)).mp hq⟩
  · rintro ⟨hl, info, hc, hq⟩
    exact ⟨hl, info, hc, (any_group_iff info (· ∈ T)).mpr hq⟩

/-- Witness for C4 on the pytest fixtures (training set
`{"root.osg.training2021"}`: `jim_halpert` is `active` there,
`pam_beesly` is `pending` there, so both qualify). -/
theorem c4_training_partition_characterization_witness :
    (∀ u ∈ ["jim_halpert", "pam_beesly"], (alookup u currFixture.users).isSome = true) ∧
    ∃ r, get_new_account_requests_in_training_group ["jim_halpert", "pam_beesly"]
          currFixture ["root.osg.training2021"] = .ok r ∧
      get_new_accounts_accepted_in_training_group ["jim_halpert", "pam_beesly"]
          currFixture ["root.osg.training2021"] = .ok r ∧
      (∀ u, u ∈ r ↔ u ∈ ["jim_halpert", "pam_beesly"] ∧
        ∃ info, alookup u currFixture.users = some info ∧
          ∃ g st, (g, st) ∈ info.groups ∧ g ∈ ["root.osg.training2021"] ∧ stateCounts st) ∧
      (∀ u, r.count u ≤ (["jim_halpert", "pam_beesly"] : List String).count u) :=
  ⟨by decide,
    c4_training_partition_characterization ["jim_halpert", "pam_beesly"]
      currFixture ["root.osg.training2021"] (by decide)⟩

/-- C5: both non-training partition functions first absorb the training
set into the caller's `exclude` set in place (modelled by the returned
set, whose members are exactly `exclude ∪ training`), then return
exactly the listed users having at least one group outside
`exclude ∪ training` with state `active` or `pending`; threading the
returned set into a later call accumulates that call's training set on
top of the earlier one. -/
theorem c5_non_training_mutation_and_characterization
    (l : List String) (curr : Snapshot) (T ex : List String)
    (hpres : ∀ u ∈ l, (alookup u curr.users).isSome = true) :
    (∀ x, x ∈ (get_new_account_requests_in_non_training_group l curr T ex).2 ↔
      x ∈ ex ∨ x ∈ T) ∧
    (∀ x, x ∈ (get_new_accounts_accepted_in_non_training_group l curr T ex).2 ↔
      x ∈ ex ∨ x ∈ T) ∧
    (∃ r, (get_new_account_requests_in_non_training_group l curr T ex).1 = .ok r ∧
      (get_new_accounts_accepted_in_non_training_group l curr T ex).1 = .ok r ∧
      ∀ u, u ∈ r ↔ u ∈ l ∧ ∃ info, alookup u curr.users = some info ∧
        ∃ g st, (g, st) ∈ info.groups ∧ g ∉ ex ∧ g ∉ T ∧ stateCounts st) ∧
    (∀ (l2 : List String) (curr2 : Snapshot) (T2 : List String) (x : String),
      x ∈ (get_new_account_requests_in_non_training_group l2 curr2 T2
            (get_new_account_requests_in_non_training_group l curr T ex).2).2 ↔
        x ∈ ex ∨ x ∈ T ∨ x ∈ T2) := by
  have hno : ∀ g, g ∉ setUnion ex T ↔ g ∉ ex ∧ g ∉ T := fun g => by
    rw [show (g ∉ setUnion ex T) = ¬ (g ∈ setUnion ex T) from rfl, mem_setUnion]
    exact not_or
  refine ⟨fun x => mem_setUnion ex T x, fun x => mem_setUnion ex T x, ?_, ?_⟩
  · obtain ⟨r, hr, hsub, hiff⟩ := partitionScan_ok curr
      (fun group_name state => decide (group_name ∉ setUnion ex T ∧ stateCounts state)) l hpres
    refine ⟨r, hr, hr, fun u => ?_⟩
    rw [hiff u]
    constructor
    · rintro ⟨hl, info, hc, hq⟩
      obtain ⟨g, st, hmem, hgT, hsc⟩ := (any_group_iff info (· ∉ setUnion ex T)).mp hq
      have h := (hno g).mp hgT
      exact ⟨hl, info, hc, g, st, hmem, h.1, h.2, hsc⟩
    · rintro ⟨hl, info, hc, g, st, hmem, h1, h2, hsc⟩
      exact ⟨hl, info, hc,
        (any_group_iff info (· ∉ setUnion ex T)).mpr ⟨g, st, hmem, (hno g).mpr ⟨h1, h2⟩, hsc⟩⟩
  · intro l2 curr2 T2 x
    show x ∈ setUnion (setUnion ex T) T2 ↔ x ∈ ex ∨ x ∈ T ∨ x ∈ T2
    rw [mem_setUnion, mem_setUnion, or_assoc]

/-- Witness for C5: a call on the fixtures with training set
`{"root.osg.training2021"}` and the default exclude set
`{"root", "root.osg"}`, rethreaded into a second call with training set
`{"root.osg.training2022"}`. -/
theorem c5_non_training_mutation_and_characterization_witness :
    (∀ u ∈ ["jim_halpert", "pam_beesly"], (alookup u currFixture.users).isSome = true) ∧
    (∀ x, x ∈ (get_new_account_requests_in_non_training_group ["jim_halpert", "pam_beesly"]
        currFixture ["root.osg.training2021"] ["root", "root.osg"]).2 ↔
      x ∈ ["root", "root.osg"] ∨ x ∈ ["root.osg.training2021"]) ∧
    (∀ x, x ∈ (get_new_accounts_accepted_in_non_training_group ["jim_halpert", "pam_beesly"]
        currFixture ["root.osg.training2021"] ["root", "root.osg"]).2 ↔
      x ∈ ["root", "root.osg"] ∨ x ∈ ["root.osg.training2021"]) ∧
    (∃ r, (get_new_account_requests_in_non_training_group ["jim_halpert", "pam_beesly"]
        currFixture ["root.osg.training2021"] ["root", "root.osg"]).1 = .ok r ∧
      (get_new_accounts_accepted_in_non_training_group ["jim_halpert", "pam_beesly"]
        currFixture ["root.osg.training2021"] ["root", "root.osg"]).1 = .ok r ∧
      ∀ u, u ∈ r ↔ u ∈ ["jim_halpert", "pam_beesly"] ∧
        ∃ info, alookup u currFixture.users = some info ∧
          ∃ g st, (g, st) ∈ info.groups ∧ g ∉ (["root", "root.osg"] : List String) ∧
            g ∉ (["root.osg.training2021"] : List String) ∧ stateCounts st) ∧
    (∀ (l2 : List String) (curr2 : Snapshot) (T2 : List String) (x : String),
      x ∈ (get_new_account_requests_in_non_training_group l2 curr2 T2
            (get_new_account_requests_in_non_training_group ["jim_halpert", "pam_beesly"]
              currFixture ["root.osg.training2021"] ["root", "root.osg"]).2).2 ↔
        x ∈ ["root", "root.osg"] ∨ x ∈ ["root.osg.training2021"] ∨ x ∈ T2) :=
  ⟨by decide,
    c5_non_training_mutation_and_characterization ["jim_halpert", "pam_beesly"]
      currFixture ["root.osg.training2021"] ["root", "root.osg"] (by decide)⟩

/-- C6 is false as stated: the training and non-training partitions of
the same user list need not be disjoint.  On the repository's own test
fixture, `jim_halpert` belongs to `root.osg.training2021` (training,
`active`) and to `root.osg.non_training` (non-training, `active`), so he
appears in both partition results. -/
theorem c6_counterexample :
    ¬ (∀ (l : List String) (curr : Snapshot) (T r₁ r₂ : List String),
        get_new_account_requests_in_training_group l curr T = .ok r₁ →
        (get_new_account_requests_in_non_training_group l curr T
          ["root", "root.osg"]).1 = .ok r₂ →
        ∀ u, u ∈ r₁ → u ∉ r₂) := by
  intro h
  exact h ["jim_halpert"] currFixture ["root.osg.training2021"]
    ["jim_halpert"] ["jim_halpert"] rfl rfl "jim_halpert" (by decide) (by decide)

/-- C6 amended: over the same user list and training set (with the
default exclude set), a user lies in both partitions exactly when they
have at least one qualifying training group and at least one qualifying
group outside `exclude ∪ training`; the intersection is therefore empty
only when no listed user has both kinds of qualifying groups, not in
general. -/
theorem c6_intersection_characterization
    (l : List String) (curr : Snapshot) (T : List String)
    (hpres : ∀ u ∈ l, (alookup u curr.users).isSome = true) :
    ∃ r₁ r₂, get_new_account_requests_in_training_group l curr T = .ok r₁ ∧
      (get_new_account_requests_in_non_training_group l curr T
        ["root", "root.osg"]).1 = .ok r₂ ∧
      ∀ u, (u ∈ r₁ ∧ u ∈ r₂) ↔ u ∈ l ∧ ∃ info, alookup u curr.users = some info ∧
        (∃ g st, (g, st) ∈ info.groups ∧ g ∈ T ∧ stateCounts st) ∧
        (∃ g st, (g, st) ∈ info.groups ∧ g ∉ (["root", "root.osg"] : List String) ∧
          g ∉ T ∧ stateCounts st) := by
  have hno : ∀ g, g ∉ setUnion ["root", "root.osg"] T ↔
      g ∉ (["root", "root.osg"] : List String) ∧ g ∉ T := fun g => by
    rw [show (g ∉ setUnion ["root", "root.osg"] T)
      = ¬ (g ∈ setUnion ["root", "root.osg"] T) from rfl, mem_setUnion]
    exact not_or
  obtain ⟨r₁, hr₁, hsub₁, hiff₁⟩ := partitionScan_ok curr
    (fun group_name state => decide (group_name ∈ T ∧ stateCounts state)) l hpres
  obtain ⟨r₂, hr₂, hsub₂, hiff₂⟩ := partitionScan_ok curr
    (fun group_name state =>
      decide (group_name ∉ setUnion ["root", "root.osg"] T ∧ stateCounts state)) l hpres
  refine ⟨r₁, r₂, hr₁, hr₂, fun u => ?_⟩
  rw [hiff₁ u, hiff₂ u]
  constructor
  · rintro ⟨⟨hl, info, hc, hq1⟩, ⟨-, info', hc', hq2⟩⟩
    rw [hc] at hc'
    injection hc' with e
    subst e
    refine ⟨hl, info, hc, (any_group_iff info (· ∈ T)).mp hq1, ?_⟩
    obtain ⟨g, st, hmem, hgT, hsc⟩ :=
      (any_group_iff info (· ∉ setUnion ["root", "root.osg"] T)).mp hq2
    have h := (hno g).mp hgT
    exact ⟨g, st, hmem, h.1, h.2, hsc⟩
  · rintro ⟨hl, info, hc, h1, g, st, hmem, hg1, hg2, hsc⟩
    exact ⟨⟨hl, info, hc, (any_group_iff info (· ∈ T)).mpr h1⟩,
      ⟨hl, info, hc, (any_group_iff info (· ∉ setUnion ["root", "root.osg"] T)).mpr
        ⟨g, st, hmem, (hno g).mpr ⟨hg1, hg2⟩, hsc⟩⟩⟩

/-- Witness for the amended C6, on the fixture where `jim_halpert` has
both kinds of qualifying groups. -/
theorem c6_intersection_characterization_witness :
    (∀ u ∈ ["jim_halpert"], (alookup u currFixture.users).isSome = true) ∧
    ∃ r₁ r₂, get_new_account_requests_in_training_group ["jim_halpert"]
          currFixture ["root.osg.training2021"] = .ok r₁ ∧
      (get_new_account_requests_in_non_training_group ["jim_halpert"]
        currFixture ["root.osg.training2021"] ["root", "root.osg"]).1 = .ok r₂ ∧
      ∀ u, (u ∈ r₁ ∧ u ∈ r₂) ↔ u ∈ ["jim_halpert"] ∧
        ∃ info, alookup u currFixture.users = some info ∧
          (∃ g st, (g, st) ∈ info.groups ∧ g ∈ ["root.osg.training2021"] ∧ stateCounts st) ∧
          (∃ g st, (g, st) ∈ info.groups ∧ g ∉ (["root", "root.osg"] : List String) ∧
            g ∉ (["root.osg.training2021"] : List String) ∧ stateCounts st) :=
  ⟨by decide,
    c6_intersection_characterization ["jim_halpert"] currFixture
      ["root.osg.training2021"] (by decide)⟩

/-- C7: every classifier operation is a deterministic function of its
explicit arguments; in particular, re-running a partition with fresh
training/exclude sets that are identical as sets (equal membership,
whatever the representation) yields the identical ordered output list,
and the two snapshot classifiers trivially repeat their output on
identical snapshot pairs. -/
theorem c7_deterministic_idempotent
    (prev curr : Snapshot) (l : List String) (T T' ex ex' : List String)
    (hT : ∀ x, x ∈ T ↔ x ∈ T') (hex : ∀ x, x ∈ ex ↔ x ∈ ex') :
    get_new_account_requests prev curr = get_new_account_requests prev curr ∧
    get_new_accounts_accepted prev curr = get_new_accounts_accepted prev curr ∧
    get_new_account_requests_in_training_group l curr T
      = get_new_account_requests_in_training_group l curr T' ∧
    (get_new_account_requests_in_non_training_group l curr T ex).1
      = (get_new_account_requests_in_non_training_group l curr T' ex').1 ∧
    get_new_accounts_accepted_in_training_group l curr T
      = get_new_accounts_accepted_in_training_group l curr T' ∧
    (get_new_accounts_accepted_in_non_training_group l curr T ex).1
      = (get_new_accounts_accepted_in_non_training_group l curr T' ex').1 := by
  have htr : partitionScan curr
        (fun group_name state => decide (group_name ∈ T ∧ stateCounts state)) l
      = partitionScan curr
        (fun group_name state => decide (group_name ∈ T' ∧ stateCounts state)) l :=
    partitionScan_congr curr _ _
      (fun g s => decide_eq_decide.mpr (and_congr (hT g) Iff.rfl)) l
  have hsu : ∀ g, g ∈ setUnion ex T ↔ g ∈ setUnion ex' T' := fun g => by
    rw [mem_setUnion, mem_setUnion]
    exact or_congr (hex g) (hT g)
  have hnt : partitionScan curr
        (fun group_name state =>
          decide (group_name ∉ setUnion ex T ∧ stateCounts state)) l
      = partitionScan curr
        (fun group_name state =>
          decide (group_name ∉ setUnion ex' T' ∧ stateCounts state)) l :=
    partitionScan_congr curr _ _
      (fun g s => decide_eq_decide.mpr (and_congr (not_congr (hsu g)) Iff.rfl)) l
  exact ⟨rfl, rfl, htr, hnt, htr, hnt⟩

/-- Witness for C7: fresh training and exclude sets given by lists with
the same members in different order and multiplicity. -/
theorem c7_deterministic_idempotent_witness :
    (∀ x : String, x ∈ ["root.osg.training2021", "root.osg.training2022"] ↔
      x ∈ ["root.osg.training2022", "root.osg.training2021", "root.osg.training2021"]) ∧
    (∀ x : String, x ∈ ["root", "root.osg"] ↔ x ∈ ["root.osg", "root"]) ∧
    get_new_account_requests_in_training_group ["jim_halpert"] currFixture
        ["root.osg.training2021", "root.osg.training2022"]
      = get_new_account_requests_in_training_group ["jim_halpert"] currFixture
        ["root.osg.training2022", "root.osg.training2021", "root.osg.training2021"] ∧
    (get_new_account_requests_in_non_training_group ["jim_halpert"] currFixture
        ["root.osg.training2021", "root.osg.training2022"] ["root", "root.osg"]).1
      = (get_new_account_requests_in_non_training_group ["jim_halpert"] currFixture
        ["root.osg.training2022", "root.osg.training2021", "root.osg.training2021"]
        ["root.osg", "root"]).1 := by
  have hT : ∀ x : String, x ∈ ["root.osg.training2021", "root.osg.training2022"] ↔
      x ∈ ["root.osg.training2022", "root.osg.training2021", "root.osg.training2021"] := by
    intro x
    simp only [List.mem_cons, List.not_mem_nil, or_false]
    tauto
  have hex : ∀ x : String, x ∈ ["root", "root.osg"] ↔ x ∈ ["root.osg", "root"] := by
    intro x
    simp only [List.mem_cons, List.not_mem_nil, or_false]
    tauto
  have h := c7_deterministic_idempotent currFixture currFixture ["jim_halpert"]
    ["root.osg.training2021", "root.osg.training2022"]
    ["root.osg.training2022", "root.osg.training2021", "root.osg.training2021"]
    ["root", "root.osg"] ["root.osg", "root"] hT hex
  exact ⟨hT, hex, h.2.2.1, h.2.2.2.1⟩

/-- C10: each of the four partition functions, whenever it succeeds,
returns an order-preserving subsequence of its input user list (at most
one append per list element), which is therefore duplicate-free whenever
the input list is. -/
theorem c10_partition_subsequence
    (l : List String) (curr : Snapshot) (T ex : List String) :
    (∀ r, get_new_account_requests_in_training_group l curr T = .ok r →
      r.Sublist l ∧ (l.Nodup → r.Nodup)) ∧
    (∀ r, (get_new_account_requests_in_non_training_group l curr T ex).1 = .ok r →
      r.Sublist l ∧ (l.Nodup → r.Nodup)) ∧
    (∀ r, get_new_accounts_accepted_in_training_group l curr T = .ok r →
      r.Sublist l ∧ (l.Nodup → r.Nodup)) ∧
    (∀ r, (get_new_accounts_accepted_in_non_training_group l curr T ex).1 = .ok r →
      r.Sublist l ∧ (l.Nodup → r.Nodup)) := by
  refine ⟨fun r hr => ?_, fun r hr => ?_, fun r hr => ?_, fun r hr => ?_⟩
  · have hsub := partitionScan_sublist curr
      (fun group_name state => decide (group_name ∈ T ∧ stateCounts state)) l r hr
    exact ⟨hsub, fun hn => hn.sublist hsub⟩
  · have hsub := partitionScan_sublist curr
      (fun group_name state =>
        decide (group_name ∉ setUnion ex T ∧ stateCounts state)) l r hr
    exact ⟨hsub, fun hn => hn.sublist hsub⟩
  · have hsub := partitionScan_sublist curr
      (fun group_name state => decide (group_name ∈ T ∧ stateCounts state)) l r hr
    exact ⟨hsub, fun hn => hn.sublist hsub⟩
  · have hsub := partitionScan_sublist curr
      (fun group_name state =>
        decide (group_name ∉ setUnion ex T ∧ stateCounts state)) l r hr
    exact ⟨hsub, fun hn => hn.sublist hsub⟩

/-- Witness for C10 on the fixtures: a two-element duplicate-free input
list and the successful results of the four partition functions. -/
theorem c10_partition_subsequence_witness :
    get_new_account_requests_in_training_group ["jim_halpert", "pam_beesly"] currFixture
        ["root.osg.training2021"] = .ok ["jim_halpert", "pam_beesly"] ∧
    List.Sublist ["jim_halpert", "pam_beesly"] ["jim_halpert", "pam_beesly"] ∧
    ((["jim_halpert", "pam_beesly"] : List String).Nodup →
      (["jim_halpert", "pam_beesly"] : List String).Nodup) := by
  have h := (c10_partition_subsequence ["jim_halpert", "pam_beesly"] currFixture
    ["root.osg.training2021"] ["root", "root.osg"]).1 ["jim_halpert", "pam_beesly"] rfl
  exact ⟨rfl, h.1, h.2⟩

theorem scan_all_le (files : List SnapshotFile) (best : Option String) (bd : Date)
    (hparse : ∀ f ∈ files, is_snapshot_file f = true → f.parsed_date ≠ none)
    (hle : ∀ f ∈ files, is_snapshot_file f = true → ∀ d, f.parsed_date = some d → d ≤ bd) :
    scan_snapshot_dir files best bd = .ok best := by
  induction files with
  | nil => rfl
  | cons f rest ih =>
    have ih' := ih (fun g hg => hparse g (List.mem_cons_of_mem _ hg))
      (fun g hg => hle g (List.mem_cons_of_mem _ hg))
    cases hsf : is_snapshot_file f with
    | false => simpa [scan_snapshot_dir, hsf] using ih'
    | true =>
      cases hd : f.parsed_date with
      | none => exact absurd hd (hparse f (List.mem_cons_self _ _) hsf)
      | some d =>
        have hnlt : ¬ bd < d := not_lt.mpr (hle f (List.mem_cons_self _ _) hsf d hd)
        simpa [scan_snapshot_dir, hsf, hd, hnlt] using ih'

theorem scan_error (files : List SnapshotFile)
    (hbad : ∃ f ∈ files, is_snapshot_file f = true ∧ f.parsed_date = none) :
    ∀ (best : Option String) (bd : Date),
      scan_snapshot_dir files best bd = .error () := by
  induction files with
  | nil => simp at hbad
  | cons f rest ih =>
    intro best bd
    rcases hbad with ⟨g, hg, hsfg, hdg⟩
    rcases List.mem_cons.mp hg with rfl | hmem
    · simp [scan_snapshot_dir, hsfg, hdg]
    · have ih' := ih ⟨g, hmem, hsfg, hdg⟩
      cases hsf : is_snapshot_file f with
      | false => simpa [scan_snapshot_dir, hsf] using ih' best bd
      | true =>
        cases hd : f.parsed_date with
        | none => simp [scan_snapshot_dir, hsf, hd]
        | some d =>
          by_cases hlt : bd < d
          · simpa [scan_snapshot_dir, hsf, hd, hlt] using ih' (some f.name) d
          · simpa [scan_snapshot_dir, hsf, hd, hlt] using ih' best bd

theorem scan_finds_max (files : List SnapshotFile)
    (hparse : ∀ f ∈ files, is_snapshot_file f = true → f.parsed_date ≠ none) :
    ∀ (best : Option String) (bd : Date),
      (∃ f ∈ files, is_snapshot_file f = true ∧ ∃ d, f.parsed_date = some d ∧ bd < d) →
      ∃ w dm, w ∈ files ∧ is_snapshot_file w = true ∧ w.parsed_date = some dm ∧ bd < dm ∧
        (∀ g ∈ files, is_snapshot_file g = true → ∀ dg, g.parsed_date = some dg → dg ≤ dm) ∧
        scan_snapshot_dir files best bd = .ok (some w.name) := by
  induction files with
  | nil => intro best bd hex; simp at hex
  | cons f rest ih =>
    intro best bd hex
    have hparse' : ∀ g ∈ rest, is_snapshot_file g = true → g.parsed_date ≠ none :=
      fun g hg => hparse g (List.mem_cons_of_mem _ hg)
    cases hsf : is_snapshot_file f with
    | false =>
      have hex' : ∃ g ∈ rest, is_snapshot_file g = true ∧
          ∃ d, g.parsed_date = some d ∧ bd < d := by
        rcases hex with ⟨g, hg, hsfg, hd⟩
        rcases List.mem_cons.mp hg with rfl | hmem
        · rw [hsf] at hsfg; cases hsfg
        · exact ⟨g, hmem, hsfg, hd⟩
      obtain ⟨w, dm, hw, hsfw, hdw, hbdw, hmax, hscan⟩ := ih hparse' best bd hex'
      refine ⟨w, dm, List.mem_cons_of_mem _ hw, hsfw, hdw, hbdw, ?_, ?_⟩
      · intro g hg hsfg dg hdg
        rcases List.mem_cons.mp hg with rfl | hmem
        · rw [hsf] at hsfg; cases hsfg
        · exact hmax g hmem hsfg dg hdg
      · simpa [scan_snapshot_dir, hsf] using hscan
    | true =>
      cases hd : f.parsed_date with
      | none => exact absurd hd (hparse f (List.mem_cons_self _ _) hsf)
      | some d =>
        by_cases hlt : bd < d
        · by_cases hrest : ∃ g ∈ rest, is_snapshot_file g = true ∧
              ∃ dg, g.parsed_date = some dg ∧ d < dg
          · obtain ⟨w, dm, hw, hsfw, hdw, hdm, hmax, hscan⟩ :=
              ih hparse' (some f.name) d hrest
            refine ⟨w, dm, List.mem_cons_of_mem _ hw, hsfw, hdw,
              lt_trans hlt hdm, ?_, ?_⟩
            · intro g hg hsfg dg hdg
              rcases List.mem_cons.mp hg with rfl | hmem
              · rw [hd] at hdg
                injection hdg with e
                subst e
                exact le_of_lt hdm
              · exact hmax g hmem hsfg dg hdg
            · simpa [scan_snapshot_dir, hsf, hd, hlt] using hscan
          · push_neg at hrest
            have hrest' : ∀ g ∈ rest, is_snapshot_file g = true →
                ∀ dg, g.parsed_date = some dg → dg ≤ d := by
              intro g hg hsfg dg hdg
              exact not_lt.mp (by simpa [hdg] using hrest g hg hsfg dg)
            have hscan : scan_snapshot_dir rest (some f.name) d = .ok (some f.name) :=
              scan_all_le rest (some f.name) d hparse' hrest'
            refine ⟨f, d, List.mem_cons_self _ _, hsf, hd, hlt, ?_, ?_⟩
            · intro g hg hsfg dg hdg
              rcases List.mem_cons.mp hg with rfl | hmem
              · rw [hd] at hdg
                injection hdg with e
                subst e
                exact le_refl d
              · exact hrest' g hmem hsfg dg hdg
            · simpa [scan_snapshot_dir, hsf, hd, hlt] using hscan
        · have hex' : ∃ g ∈ rest, is_snapshot_file g = true ∧
              ∃ dg, g.parsed_date = some dg ∧ bd < dg := by
            rcases hex with ⟨g, hg, hsfg, dg, hdg, hbdg⟩
            rcases List.mem_cons.mp hg with rfl | hmem
            · rw [hd] at hdg
              injection hdg with e
              subst e
              exact absurd hbdg hlt
            · exact ⟨g, hmem, hsfg, dg, hdg, hbdg⟩
          obtain ⟨w, dm, hw, hsfw, hdw, hbdw, hmax, hscan⟩ := ih hparse' best bd hex'
          refine ⟨w, dm, List.mem_cons_of_mem _ hw, hsfw, hdw, hbdw, ?_, ?_⟩
          · intro g hg hsfg dg hdg
            rcases List.mem_cons.mp hg with rfl | hmem
            · rw [hd] at hdg
              injection hdg with e
              subst e
              exact le_trans (not_lt.mp hlt) (le_of_lt hbdw)
            · exact hmax g hmem hsfg dg hdg
          · simpa [scan_snapshot_dir, hsf, hd, hlt] using hscan

/-- C8: `get_latest_snapshot_on_disk` returns `none` when the snapshot
directory is missing, and when the directory holds no file matching
`*_snapshot.json`; a matching file whose contents fail to parse aborts
the scan with an error rather than being skipped; and when every
matching file parses to a genuine date (later than the `datetime.min`
sentinel), the function returns a matching file of maximum parsed
date. -/
theorem c8_latest_snapshot_on_disk :
    get_latest_snapshot_on_disk none = .ok none ∧
    (∀ files : List SnapshotFile, (∀ f ∈ files, is_snapshot_file f = false) →
      get_latest_snapshot_on_disk (some files) = .ok none) ∧
    (∀ files : List SnapshotFile,
      (∃ f ∈ files, is_snapshot_file f = true ∧ f.parsed_date = none) →
      get_latest_snapshot_on_disk (some files) = .error ()) ∧
    (∀ files : List SnapshotFile,
      (∀ f ∈ files, is_snapshot_file f = true → f.parsed_date ≠ none) →
      (∀ f ∈ files, is_snapshot_file f = true → ∀ d, f.parsed_date = some d → 0 < d) →
      (∃ f ∈ files, is_snapshot_file f = true) →
      ∃ w dm, w ∈ files ∧ is_snapshot_file w = true ∧ w.parsed_date = some dm ∧
        (∀ g ∈ files, is_snapshot_file g = true → ∀ dg, g.parsed_date = some dg → dg ≤ dm) ∧
        get_latest_snapshot_on_disk (some files) = .ok (some w.name)) := by
  refine ⟨rfl, ?_, ?_, ?_⟩
  · intro files hnone
    exact scan_all_le files none 0
      (fun f hf hsf => absurd hsf (by rw [hnone f hf]; simp))
      (fun f hf hsf => absurd hsf (by rw [hnone f hf]; simp))
  · intro files hbad
    exact scan_error files hbad none 0
  · intro files hparse hpos hex
    have hex' : ∃ f ∈ files, is_snapshot_file f = true ∧
        ∃ d, f.parsed_date = some d ∧ 0 < d := by
      rcases hex with ⟨f, hf, hsf⟩
      cases hd : f.parsed_date with
      | none => exact absurd hd (hparse f hf hsf)
      | some d => exact ⟨f, hf, hsf, d, hd, hpos f hf hsf d hd⟩
    obtain ⟨w, dm, hw, hsfw, hdw, -, hmax, hscan⟩ := scan_finds_max files hparse none 0 hex'
    exact ⟨w, dm, hw, hsfw, hdw, hmax, hscan⟩

/-- Witness for C8: a directory with only a non-matching file returns
`none`; a malformed matching file aborts; a directory with two matching
parsed files returns the one with the larger date. -/
theorem c8_latest_snapshot_on_disk_witness :
    (∀ f ∈ [(⟨"readme.txt", some 5⟩ : SnapshotFile)], is_snapshot_file f = false) ∧
    get_latest_snapshot_on_disk (some [⟨"readme.txt", some 5⟩]) = .ok none ∧
    (∃ f ∈ [(⟨"20210101_snapshot.json", none⟩ : SnapshotFile)],
      is_snapshot_file f = true ∧ f.parsed_date = none) ∧
    get_latest_snapshot_on_disk (some [⟨"20210101_snapshot.json", none⟩]) = .error () ∧
    (∃ w dm, w ∈ [(⟨"20210101_snapshot.json", some 10⟩ : SnapshotFile),
        ⟨"20210107_snapshot.json", some 70⟩, ⟨"notes", none⟩] ∧
      is_snapshot_file w = true ∧ w.parsed_date = some dm ∧
      (∀ g ∈ [(⟨"20210101_snapshot.json", some 10⟩ : SnapshotFile),
          ⟨"20210107_snapshot.json", some 70⟩, ⟨"notes", none⟩],
        is_snapshot_file g = true → ∀ dg, g.parsed_date = some dg → dg ≤ dm) ∧
      get_latest_snapshot_on_disk
          (some [⟨"20210101_snapshot.json", some 10⟩,
            ⟨"20210107_snapshot.json", some 70⟩, ⟨"notes", none⟩])
        = .ok (some w.name)) :=
  ⟨by decide, c8_latest_snapshot_on_disk.2.1 _ (by decide),
    by decide, c8_latest_snapshot_on_disk.2.2.1 _ (by decide),
    c8_latest_snapshot_on_disk.2.2.2 _ (by decide) (by decide) (by decide)⟩

end UserReport
